import Mathlib

set_option autoImplicit false

/-!
Shallow embedding of the rugged C extension sources
(`rugged_commit.c`, `rugged_commit_stats.c`, `rugged_revwalk.c`,
`rugged_object.c`).

Objects live in a content-addressed store, modelled as an association
list from OID (40-char hex string) to object payload.  The libgit2
primitives the bindings call (`git_commit_lookup`, `git_commit_parent`,
`git_odb_exists`, prefix lookup, the diff engine, the merge-base query
and the revision walker) are external collaborators per the spec; the
graph / lookup primitives are given the obvious store semantics, and the
diff engine, merge base and revision walker are modelled from the spec
where noted.
-/

deriving instance DecidableEq for Except

namespace Rugged

/-- An object id: 40 hexadecimal characters (GIT_OID_HEXSZ). -/
abbrev Oid := String

def GIT_OID_HEXSZ : Nat := 40

/-- A commit or author signature: name, email, timestamp. -/
structure Sig where
  name : String
  email : String
  time : Nat
deriving DecidableEq

/-- The decoded payload of a commit object: ordered parent OIDs, tree
OID, author/committer signatures and the committer timestamp, plus the
commit's own content hash (`git_commit_id`). -/
structure CommitData where
  oid : Oid
  parents : List Oid
  treeOid : Oid
  author : Sig
  committer : Sig
  time : Nat
deriving DecidableEq

/-- A tree is a directory snapshot: a list of (path, file lines). -/
abbrev TreeData := List (String × List String)

/-- A store object: one of the four libgit2 variants. -/
inductive GObj where
  | commit (c : CommitData)
  | tree (t : TreeData)
  | tag (target : Oid)
  | blob (content : String)
deriving DecidableEq

/-- A repository's object database: OID-keyed association list. -/
abbrev Repo := List (Oid × GObj)

/-- Error outcomes of the wrapped library calls, as the bindings
distinguish them: `notFound` (GIT_ENOTFOUND), `ambiguous`
(GIT_EAMBIGUOUS from prefix lookup), `typeMismatch` (object exists with
the wrong variant), `invalidSpec` (bad hash / revision text), `tooShort`
and `tooLong` (OID string length validation in the bindings), and
`fuelExhausted`, an artifact of bounding the unbounded C loops — never
reached when enough fuel is supplied. -/
inductive GitError where
  | notFound
  | ambiguous
  | typeMismatch
  | invalidSpec
  | tooShort
  | tooLong
  | fuelExhausted
deriving DecidableEq

/-- Raw store fetch by exact OID. -/
def lookupObj (repo : Repo) (o : Oid) : Option GObj :=
  (repo.find? (fun e => e.1 == o)).map (fun e => e.2)

/-- `git_commit_lookup`: fetch an object and require the commit variant. -/
def git_commit_lookup (repo : Repo) (o : Oid) : Except GitError CommitData :=
  match lookupObj repo o with
  | some (GObj.commit c) => Except.ok c
  | some _ => Except.error GitError.typeMismatch
  | none => Except.error GitError.notFound

/-- `git_tree_lookup`: fetch an object and require the tree variant. -/
def git_tree_lookup (repo : Repo) (o : Oid) : Except GitError TreeData :=
  match lookupObj repo o with
  | some (GObj.tree t) => Except.ok t
  | some _ => Except.error GitError.typeMismatch
  | none => Except.error GitError.notFound

/-- `git_commit_tree`: decode the tree a commit points to. -/
def git_commit_tree (repo : Repo) (c : CommitData) : Except GitError TreeData :=
  git_tree_lookup repo c.treeOid

/-- `git_commit_parent(commit, n)`: decode parent `n`.  libgit2 reports
GIT_ENOTFOUND when `n` is out of range. -/
def git_commit_parent (repo : Repo) (c : CommitData) (n : Nat) : Except GitError CommitData :=
  match c.parents.get? n with
  | some p => git_commit_lookup repo p
  | none => Except.error GitError.notFound

/-! ### `rugged_commit.c`: parents / parent accessors -/

/-- The loop body of `rb_git_commit_parents_GET`: call
`git_commit_parent(commit, n)` for each index in turn, propagating any
lookup failure. -/
def collectParents (repo : Repo) (c : CommitData) : List Nat → Except GitError (List CommitData)
  | [] => Except.ok []
  | n :: ns =>
    match git_commit_parent repo c n with
    | Except.error e => Except.error e
    | Except.ok p =>
      match collectParents repo c ns with
      | Except.error e => Except.error e
      | Except.ok ps => Except.ok (p :: ps)

/-- `rb_git_commit_parents_GET`: materialize every parent, index
0 .. parentcount-1. -/
def rb_git_commit_parents_GET (repo : Repo) (c : CommitData) : Except GitError (List CommitData) :=
  collectParents repo c (List.range c.parents.length)

/-- `rb_git_commit_parent_GET`: if the commit has at least one parent,
materialize parent 0; otherwise return nil (modelled as `none`). -/
def rb_git_commit_parent_GET (repo : Repo) (c : CommitData) :
    Except GitError (Option CommitData) :=
  if 0 < c.parents.length then
    match git_commit_parent repo c 0 with
    | Except.error e => Except.error e
    | Except.ok p => Except.ok (some p)
  else
    Except.ok none

/-! Demo store shared by several witnesses: a root commit and a child. -/

def sigA : Sig := { name := "alice", email := "a@x", time := 10 }
def sigB : Sig := { name := "bob", email := "b@x", time := 20 }

def oidRoot : Oid := "aaaaaaaaaaaaaaaaaaaaaaaaaaaaaaaaaaaaaaaa"
def oidChild : Oid := "bbbbbbbbbbbbbbbbbbbbbbbbbbbbbbbbbbbbbbbb"
def oidTreeR : Oid := "cccccccccccccccccccccccccccccccccccccccc"
def oidTreeC : Oid := "dddddddddddddddddddddddddddddddddddddddd"

def treeRoot : TreeData := [("f.txt", ["l1", "l2"])]
def treeChild : TreeData := [("f.txt", ["l1", "l2", "l3"])]

def commitRoot : CommitData :=
  { oid := oidRoot, parents := [], treeOid := oidTreeR,
    author := sigA, committer := sigA, time := 100 }

def commitChild : CommitData :=
  { oid := oidChild, parents := [oidRoot], treeOid := oidTreeC,
    author := sigB, committer := sigB, time := 200 }

def demoRepo : Repo :=
  [ (oidRoot, GObj.commit commitRoot),
    (oidChild, GObj.commit commitChild),
    (oidTreeR, GObj.tree treeRoot),
    (oidTreeC, GObj.tree treeChild) ]

/-! ### C1 -/

/-- C1 counterexample: on a commit with no parents, `parent` returns
nil; it does not fail with NotFound as the claim states.  The source's
own doc comment says "Nil will be returned if the commit has no
parent." -/
theorem parent_GET_root_is_nil_not_notFound :
    commitRoot.parents = [] ∧
    rb_git_commit_parent_GET demoRepo commitRoot = Except.ok none ∧
    rb_git_commit_parent_GET demoRepo commitRoot ≠ Except.error GitError.notFound := by
  refine ⟨rfl, rfl, ?_⟩
  decide

/-- C1 (amended): `parent(C)` agrees with `parents(C)`: whenever
`parents` succeeds with list `l`, `parent` succeeds with `l.head?` —
the first parent when `C` has at least one parent, and nil (not a
NotFound failure) when it has none. -/
theorem parent_GET_agrees_with_parents_GET (repo : Repo) (c : CommitData)
    (l : List CommitData) (h : rb_git_commit_parents_GET repo c = Except.ok l) :
    rb_git_commit_parent_GET repo c = Except.ok l.head? := by
  unfold rb_git_commit_parents_GET at h
  unfold rb_git_commit_parent_GET
  cases hp : c.parents with
  | nil =>
    rw [hp] at h
    simp only [List.length_nil, List.range_zero, collectParents] at h
    cases h
    simp [hp]
  | cons p ps =>
    rw [hp] at h
    simp only [List.length_cons, List.range_succ_eq_map, collectParents] at h
    cases h0 : git_commit_parent repo c 0 with
    | error e => rw [h0] at h; cases h
    | ok q =>
      rw [h0] at h
      cases hrest : collectParents repo c (List.map (fun n => n + 1) (List.range ps.length)) with
      | error e => rw [hrest] at h; cases h
      | ok qs =>
        rw [hrest] at h
        cases h
        simp [hp, h0]

/-- C1 amended witness: on the demo store, `parents` of the child yields
`[commitRoot]` and therefore `parent` yields its head. -/
theorem parent_GET_agrees_witness :
    rb_git_commit_parent_GET demoRepo commitChild = Except.ok [commitRoot].head? :=
  parent_GET_agrees_with_parents_GET demoRepo commitChild [commitRoot] (by decide)

/-! ### `rugged_object.c`: lookup, existence check -/

/-- The libgit2 object type selector passed to lookups
(GIT_OBJ_ANY when the receiver class carries no type constraint). -/
inductive OType where
  | any
  | commit
  | tree
  | tag
  | blob
deriving DecidableEq

def objType : GObj → OType
  | GObj.commit _ => OType.commit
  | GObj.tree _ => OType.tree
  | GObj.tag _ => OType.tag
  | GObj.blob _ => OType.blob

def typeMatches (ty : OType) (o : GObj) : Bool :=
  ty == OType.any || objType o == ty

def isHexDigit (c : Char) : Bool :=
  c.isDigit || ('a' ≤ c && c ≤ 'f') || ('A' ≤ c && c ≤ 'F')

/-- Lower-case the six upper-case hex digits. -/
def hexLower (c : Char) : Char :=
  match c with
  | 'A' => 'a'
  | 'B' => 'b'
  | 'C' => 'c'
  | 'D' => 'd'
  | 'E' => 'e'
  | 'F' => 'f'
  | _ => c

/-- `git_oid_fromstrn`: parse up to 40 hex characters into an OID
prefix; fails on over-length or non-hex input.  Hex parsing is
case-insensitive, so the value is the lower-cased digit string. -/
def git_oid_fromstrn (s : String) : Option String :=
  if s.length ≤ GIT_OID_HEXSZ && s.toList.all isHexDigit then
    some (String.mk (s.toList.map hexLower))
  else
    none

/-- `git_oid_fromstr`: parse a full 40-hex-character OID. -/
def git_oid_fromstr (s : String) : Option Oid :=
  if s.length = GIT_OID_HEXSZ then git_oid_fromstrn s else none

/-- The store entries whose OID starts with the given hex prefix. -/
def prefixMatches (repo : Repo) (pfx : String) : List (Oid × GObj) :=
  repo.filter (fun e => pfx.isPrefixOf e.1)

/-- `git_object_lookup_prefix`: unambiguous-prefix lookup.  Ambiguity is
decided over all objects in the store; the type constraint is checked on
the single match. -/
def git_object_lookup_pfx (repo : Repo) (pfx : String) (ty : OType) :
    Except GitError GObj :=
  match prefixMatches repo pfx with
  | [] => Except.error GitError.notFound
  | [e] =>
    if typeMatches ty e.2 then Except.ok e.2
    else Except.error GitError.typeMismatch
  | _ => Except.error GitError.ambiguous

/-- `git_object_lookup`: exact-OID lookup with type constraint. -/
def git_object_lookup (repo : Repo) (o : Oid) (ty : OType) : Except GitError GObj :=
  match lookupObj repo o with
  | none => Except.error GitError.notFound
  | some obj =>
    if typeMatches ty obj then Except.ok obj
    else Except.error GitError.typeMismatch

/-- `rb_git_object_lookup`: raises on an over-length OID string, parses
the hex, then does a prefix lookup (under 40 chars) or an exact lookup
(exactly 40 chars), propagating any failure. -/
def rb_git_object_lookup (repo : Repo) (ty : OType) (hex : String) :
    Except GitError GObj :=
  if GIT_OID_HEXSZ < hex.length then Except.error GitError.tooLong
  else
    match git_oid_fromstrn hex with
    | none => Except.error GitError.invalidSpec
    | some pfx =>
      if hex.length < GIT_OID_HEXSZ then git_object_lookup_pfx repo pfx ty
      else git_object_lookup repo pfx ty

/-- `rb_git_object_exists`: same resolution steps, but every failure —
over-length string, invalid hex, zero or multiple prefix matches, type
mismatch — yields `false` instead of raising; a unique match yields
`true`.  (Total by construction: no error outcome.) -/
def rb_git_object_exists (repo : Repo) (ty : OType) (hex : String) : Bool :=
  if GIT_OID_HEXSZ < hex.length then false
  else
    match git_oid_fromstrn hex with
    | none => false
    | some pfx =>
      match git_object_lookup_pfx repo pfx ty with
      | Except.ok _ => true
      | Except.error _ => false

/-! ### C10 -/

/-- C10: the existence check is a total Boolean function — it returns
`false` (never raises) when the string is longer than 40 characters,
when it is not valid hex, and when it matches zero or at least two
objects — while `lookup` on the same over-length input raises (the
"OID is too long" error) instead of returning a value. -/
theorem object_exists_never_raises (repo : Repo) (ty : OType) (hex : String) :
    (GIT_OID_HEXSZ < hex.length →
      rb_git_object_exists repo ty hex = false ∧
      rb_git_object_lookup repo ty hex = Except.error GitError.tooLong) ∧
    (git_oid_fromstrn hex = none → rb_git_object_exists repo ty hex = false) ∧
    (∀ pfx, git_oid_fromstrn hex = some pfx →
      (prefixMatches repo pfx = [] ∨ 2 ≤ (prefixMatches repo pfx).length) →
      rb_git_object_exists repo ty hex = false) := by
  refine ⟨?_, ?_, ?_⟩
  · intro hlen
    unfold rb_git_object_exists rb_git_object_lookup
    rw [if_pos hlen, if_pos hlen]
    exact ⟨rfl, rfl⟩
  · intro hnone
    unfold rb_git_object_exists
    by_cases hlen : GIT_OID_HEXSZ < hex.length
    · rw [if_pos hlen]
    · rw [if_neg hlen, hnone]
  · intro pfx hsome hmatches
    unfold rb_git_object_exists
    by_cases hlen : GIT_OID_HEXSZ < hex.length
    · rw [if_pos hlen]
    · rw [if_neg hlen, hsome]
      rcases hmatches with hnil | htwo
      · simp [git_object_lookup_pfx, hnil]
      · cases hm : prefixMatches repo pfx with
        | nil => simp [git_object_lookup_pfx, hm]
        | cons e rest =>
          cases rest with
          | nil => rw [hm] at htwo; simp at htwo
          | cons e2 rest2 => simp [git_object_lookup_pfx, hm]

/-- C10 witness: a 41-character hex string on the demo store — the
existence check returns `false` while lookup errors out. -/
theorem object_exists_never_raises_witness :
    rb_git_object_exists demoRepo OType.any
        "aaaaaaaaaaaaaaaaaaaaaaaaaaaaaaaaaaaaaaaaa" = false ∧
    rb_git_object_lookup demoRepo OType.any
        "aaaaaaaaaaaaaaaaaaaaaaaaaaaaaaaaaaaaaaaaa" = Except.error GitError.tooLong :=
  (object_exists_never_raises demoRepo OType.any
    "aaaaaaaaaaaaaaaaaaaaaaaaaaaaaaaaaaaaaaaaa").1 (by decide)

/-! ### `rugged_object.c`: `rugged_commitish` -/

def isTagObj : GObj → Bool
  | GObj.tag _ => true
  | _ => false

/-- The `while (git_object_type(object) == GIT_OBJ_TAG)` loop of
`rugged_commitish`: follow the tag's target through the store until a
non-tag object is reached.  The C loop is unbounded; `fuel` bounds it
here and `fuelExhausted` is never produced when the fuel exceeds the
chain length. -/
def derefTagChain (repo : Repo) (fuel : Nat) (o : GObj) : Except GitError GObj :=
  match o with
  | GObj.tag target =>
    match fuel with
    | 0 => Except.error GitError.fuelExhausted
    | fuel + 1 =>
      match lookupObj repo target with
      | some o2 => derefTagChain repo fuel o2
      | none => Except.error GitError.notFound
  | _ => Except.ok o

/-- Modelled from the spec: `rugged_exception_check` (in `rugged.c`,
which is not under `src/`) surfaces the GITERR_INVALID error class that
`rugged_commitish` sets on a non-commit terminal ("The requested type
does not match the type in ODB") as the spec's WrongType failure. -/
def wrongTypeError : GitError := GitError.typeMismatch

/-- `rugged_commitish`: resolve the revision expression (the revision
parser is an external collaborator, passed in as `rp`), peel tags, and
require that the terminal object is a commit. -/
def rugged_commitish (repo : Repo) (rp : String → Except GitError GObj)
    (fuel : Nat) (spec : String) : Except GitError CommitData :=
  match rp spec with
  | Except.error e => Except.error e
  | Except.ok o =>
    match derefTagChain repo fuel o with
    | Except.error e => Except.error e
    | Except.ok t =>
      match t with
      | GObj.commit c => Except.ok c
      | _ => Except.error wrongTypeError

/-- `TagChainN repo n o t`: from object `o`, following tag targets
through the store exactly `n` steps reaches the non-tag object `t`. -/
inductive TagChainN (repo : Repo) : Nat → GObj → GObj → Prop
  | done (o : GObj) : isTagObj o = false → TagChainN repo 0 o o
  | step (target : Oid) (o t : GObj) (n : Nat) :
      lookupObj repo target = some o →
      TagChainN repo n o t →
      TagChainN repo (n + 1) (GObj.tag target) t

/-- The outcome `rugged_commitish` owes on a given tag-chain terminal:
the commit itself, or the wrong-type failure. -/
def commitishResult : GObj → Except GitError CommitData
  | GObj.commit c => Except.ok c
  | _ => Except.error wrongTypeError

/-- A tag chain always ends on a non-tag object. -/
theorem tagChainN_terminal (repo : Repo) (n : Nat) (o t : GObj)
    (h : TagChainN repo n o t) : isTagObj t = false := by
  induction h with
  | done _ hnt => exact hnt
  | step _ _ _ _ _ _ ih => exact ih

/-- With fuel at least the chain length, the peeling loop lands exactly
on the chain's terminal. -/
theorem derefTagChain_of_tagChainN (repo : Repo) :
    ∀ (n : Nat) (o t : GObj), TagChainN repo n o t →
    ∀ fuel, n ≤ fuel → derefTagChain repo fuel o = Except.ok t := by
  intro n o t h
  induction h with
  | done o hnt =>
    intro fuel _
    cases o with
    | commit c => simp [derefTagChain]
    | tree t => simp [derefTagChain]
    | tag target => cases hnt
    | blob b => simp [derefTagChain]
  | step target o t n hlook _ ih =>
    intro fuel hfuel
    cases fuel with
    | zero => omega
    | succ fuel =>
      show derefTagChain repo (fuel + 1) (GObj.tag target) = Except.ok t
      unfold derefTagChain
      rw [hlook]
      exact ih fuel (by omega)

/-! ### C6 -/

/-- C6: `commitish` resolves the expression and, when the result starts
a tag chain, dereferences recursively until the non-tag terminal `t`;
it yields the terminal commit when `t` is one, and fails with the
wrong-type error when the terminal object is not a commit. -/
theorem commitish_resolves_tag_chain (repo : Repo)
    (rp : String → Except GitError GObj) (spec : String)
    (fuel n : Nat) (o t : GObj)
    (hrp : rp spec = Except.ok o)
    (hchain : TagChainN repo n o t)
    (hfuel : n ≤ fuel) :
    isTagObj t = false ∧
    rugged_commitish repo rp fuel spec = commitishResult t := by
  refine ⟨tagChainN_terminal repo n o t hchain, ?_⟩
  unfold rugged_commitish
  rw [hrp]
  show (match derefTagChain repo fuel o with
    | Except.error e => Except.error e
    | Except.ok t =>
      match t with
      | GObj.commit c => Except.ok c
      | _ => Except.error GitError.typeMismatch) = commitishResult t
  rw [derefTagChain_of_tagChainN repo n o t hchain fuel hfuel]
  cases t <;> rfl

def oidTag1 : Oid := "1111111111111111111111111111111111111111"
def oidTag2 : Oid := "2222222222222222222222222222222222222222"
def oidTagBlob : Oid := "3333333333333333333333333333333333333333"
def oidBlob : Oid := "4444444444444444444444444444444444444444"

/-- Demo store with a two-tag chain onto a commit and a tag onto a
blob. -/
def tagRepo : Repo :=
  (oidTag1, GObj.tag oidTag2) ::
  (oidTag2, GObj.tag oidRoot) ::
  (oidTagBlob, GObj.tag oidBlob) ::
  (oidBlob, GObj.blob "data") ::
  demoRepo

/-- C6 witness: peeling tag→tag→commit yields the commit, and peeling
tag→blob fails with the wrong-type error. -/
theorem commitish_resolves_tag_chain_witness :
    rugged_commitish tagRepo (fun _ => Except.ok (GObj.tag oidTag2)) 5 "v1"
      = Except.ok commitRoot ∧
    rugged_commitish tagRepo (fun _ => Except.ok (GObj.tag oidBlob)) 5 "v2"
      = Except.error GitError.typeMismatch := by
  constructor
  · exact (commitish_resolves_tag_chain tagRepo
      (fun _ => Except.ok (GObj.tag oidTag2)) "v1" 5 (1 + 1)
      (GObj.tag oidTag2) (GObj.commit commitRoot) rfl
      (@TagChainN.step tagRepo oidTag2 (GObj.tag oidRoot) (GObj.commit commitRoot) (0 + 1)
        (by decide)
        (@TagChainN.step tagRepo oidRoot (GObj.commit commitRoot) (GObj.commit commitRoot) 0
          (by decide)
          (TagChainN.done (GObj.commit commitRoot) rfl)))
      (by decide)).2
  · exact (commitish_resolves_tag_chain tagRepo
      (fun _ => Except.ok (GObj.tag oidBlob)) "v2" 5 (0 + 1)
      (GObj.tag oidBlob) (GObj.blob "data") rfl
      (@TagChainN.step tagRepo oidBlob (GObj.blob "data") (GObj.blob "data") 0
        (by decide)
        (TagChainN.done (GObj.blob "data") rfl))
      (by decide)).2

/-! ### `rugged_commit_stats.c`: diff statistics -/

/-- The diff engine's per-line origin classification. -/
inductive Origin where
  | addition
  | deletion
  | context
deriving DecidableEq

/-- One (delta, hunk, line) record the diff engine feeds the per-line
callback: the delta's old-file and new-file paths and the line's
origin. -/
structure DiffRec where
  oldPath : String
  newPath : String
  origin : Origin
deriving DecidableEq

/-- Lines of the file at `p`, empty when the tree has no such entry. -/
def lookupFile (t : TreeData) (p : String) : List String :=
  ((t.find? (fun e => e.1 == p)).map (fun e => e.2)).getD []

/-- Modelled from the spec: the external diff engine `diffTrees(treeA,
treeB, options) -> sequence of (delta, hunk, line)`.  A `none` old tree
is libgit2's NULL tree (the implicit empty tree).  Per changed path the
engine emits one record per removed old line (Deletion) and one per
inserted new line (Addition); an unchanged file emits nothing.  Default
diff options perform no rename detection, so a delta's old and new
paths coincide. -/
def git_diff_tree_to_tree (oldTree : Option TreeData) (newTree : TreeData) :
    List DiffRec :=
  let o := oldTree.getD []
  ((o.map Prod.fst ++ newTree.map Prod.fst).dedup).flatMap (fun p =>
    if lookupFile o p = lookupFile newTree p then []
    else (lookupFile o p).map (fun _ => ⟨p, p, Origin.deletion⟩) ++
         (lookupFile newTree p).map (fun _ => ⟨p, p, Origin.addition⟩))

/-- `git_commit_stats_cb`: the per-line diff callback.  A line is
counted only when no path filter is set, or when both the delta's
old-file path and its new-file path equal the filter exactly; addition
lines bump `adds`, deletion lines bump `dels`, all other origins are
ignored. -/
def git_commit_stats_cb (pathOnly : Option String) (st : Nat × Nat) (r : DiffRec) :
    Nat × Nat :=
  let counted :=
    match pathOnly with
    | none => true
    | some flt => r.oldPath == flt && r.newPath == flt
  if counted then
    match r.origin with
    | Origin.addition => (st.1 + 1, st.2)
    | Origin.deletion => (st.1, st.2 + 1)
    | _ => st
  else st

/-- `git_diff_foreach(diff, ..., git_commit_stats_cb, &args)` with
`args.adds = args.dels = 0`: fold the callback over every record. -/
def statsFold (pathOnly : Option String) (recs : List DiffRec) : Nat × Nat :=
  recs.foldl (git_commit_stats_cb pathOnly) (0, 0)

/-- `git_commit_stats_of` (the C helper): diff the first parent's tree
(NULL for a root commit) against the commit's tree and fold the counting
callback. -/
def git_commit_stats_of (repo : Repo) (tree : TreeData)
    (parent_tree : Option TreeData) (path_only : Option String) : Nat × Nat :=
  let _ := repo
  statsFold path_only (git_diff_tree_to_tree parent_tree tree)

/-- The derived commit statistics record (`struct commit_stats`). -/
structure CommitStats where
  oid : Oid
  author : Sig
  committer : Sig
  adds : Nat
  dels : Nat
deriving DecidableEq

/-- The parent-tree stage shared by the stats paths: look up
`git_commit_parent(commit, 0)` — a GIT_ENOTFOUND outcome (root commit)
is absorbed into a NULL parent tree, any other failure propagates — and
decode the parent's tree. -/
def parentTreeStage (repo : Repo) (c : CommitData) : Except GitError (Option TreeData) :=
  match git_commit_parent repo c 0 with
  | Except.ok pc =>
    match git_commit_tree repo pc with
    | Except.error e => Except.error e
    | Except.ok pt => Except.ok (some pt)
  | Except.error GitError.notFound => Except.ok none
  | Except.error e => Except.error e

/-- `rugged_commit_stats_of`: decode the commit's tree, locate the first
parent's tree — a root commit yields a NULL parent tree, not an error —
and count additions/deletions. -/
def rugged_commit_stats_of (repo : Repo) (c : CommitData)
    (path_only : Option String) : Except GitError CommitStats :=
  match git_commit_tree repo c with
  | Except.error e => Except.error e
  | Except.ok tree =>
    match parentTreeStage repo c with
    | Except.error e => Except.error e
    | Except.ok parent_tree =>
      let counts := git_commit_stats_of repo tree parent_tree path_only
      Except.ok { oid := c.oid, author := c.author, committer := c.committer,
                  adds := counts.1, dels := counts.2 }

/-! ### C7 -/

/-- Folding the filtered callback from any start equals folding the
unfiltered callback over the records whose two paths both equal the
filter. -/
theorem stats_cb_counted (f : String) (st : Nat × Nat) (r : DiffRec)
    (h : (r.oldPath == f && r.newPath == f) = true) :
    git_commit_stats_cb (some f) st r = git_commit_stats_cb none st r := by
  unfold git_commit_stats_cb
  simp [h]

theorem stats_cb_skipped (f : String) (st : Nat × Nat) (r : DiffRec)
    (h : (r.oldPath == f && r.newPath == f) = false) :
    git_commit_stats_cb (some f) st r = st := by
  unfold git_commit_stats_cb
  simp [h]

theorem statsFold_filter_aux (f : String) :
    ∀ (recs : List DiffRec) (st : Nat × Nat),
      recs.foldl (git_commit_stats_cb (some f)) st =
      (recs.filter (fun r => r.oldPath == f && r.newPath == f)).foldl
        (git_commit_stats_cb none) st := by
  intro recs
  induction recs with
  | nil => intro st; rfl
  | cons r rs ih =>
    intro st
    by_cases hf : (r.oldPath == f && r.newPath == f) = true
    · simp only [List.foldl_cons, List.filter_cons, hf, if_pos]
      rw [stats_cb_counted f st r hf, ih]
    · simp only [Bool.not_eq_true] at hf
      simp only [List.foldl_cons, List.filter_cons, hf, Bool.false_eq_true, if_false]
      rw [stats_cb_skipped f st r hf, ih]

/-- C7: with a path filter, a diff line is counted only when both the
delta's old-file and new-file paths equal the filter exactly: the
filtered counts equal the unfiltered counts over just those records,
and a record whose old or new path differs from the filter contributes
nothing. -/
theorem stats_path_filter_exact (f : String) (recs : List DiffRec) (r : DiffRec) :
    statsFold (some f) recs =
      statsFold none (recs.filter (fun r => r.oldPath == f && r.newPath == f)) ∧
    (r.oldPath ≠ f ∨ r.newPath ≠ f →
      statsFold (some f) (recs ++ [r]) = statsFold (some f) recs) := by
  constructor
  · exact statsFold_filter_aux f recs (0, 0)
  · intro hne
    unfold statsFold
    rw [List.foldl_append]
    simp only [List.foldl_cons, List.foldl_nil]
    apply stats_cb_skipped
    rcases hne with h | h
    · simp [h]
    · simp [h]

/-- C7 witness: a rename-like record (old path differs) is not counted,
so only the two in-place records of `file` are. -/
theorem stats_path_filter_exact_witness :
    statsFold (some "file")
        [⟨"file", "file", Origin.addition⟩, ⟨"other", "file", Origin.addition⟩] =
      statsFold none
        ((([⟨"file", "file", Origin.addition⟩, ⟨"other", "file", Origin.addition⟩] :
          List DiffRec)).filter (fun r => r.oldPath == "file" && r.newPath == "file")) ∧
    statsFold (some "file")
        ([⟨"file", "file", Origin.addition⟩] ++ [⟨"other", "file", Origin.deletion⟩]) =
      statsFold (some "file") [⟨"file", "file", Origin.addition⟩] :=
  ⟨(stats_path_filter_exact "file"
      [⟨"file", "file", Origin.addition⟩, ⟨"other", "file", Origin.addition⟩]
      ⟨"other", "file", Origin.deletion⟩).1,
   (stats_path_filter_exact "file"
      [⟨"file", "file", Origin.addition⟩]
      ⟨"other", "file", Origin.deletion⟩).2 (Or.inl (by decide))⟩

/-! ### C5 -/

/-- Total number of lines over all files of a tree. -/
def totalLines (t : TreeData) : Nat :=
  (t.map (fun e => e.2.length)).sum

theorem lookupFile_cons_self (e : String × List String) (rest : TreeData) :
    lookupFile (e :: rest) e.1 = e.2 := by
  unfold lookupFile
  simp [List.find?]

theorem lookupFile_cons_ne (e : String × List String) (rest : TreeData)
    (p : String) (h : ¬(e.1 = p)) :
    lookupFile (e :: rest) p = lookupFile rest p := by
  unfold lookupFile
  have : (e.1 == p) = false := by
    simp [h]
  simp [List.find?, this]

/-- A per-path added-lines record list collapses the empty/nonempty
branch of the diff model. -/
theorem diff_new_file_branch (p : String) (nl : List String) :
    (if ([] : List String) = nl then ([] : List DiffRec)
     else ([] : List String).map (fun _ => (⟨p, p, Origin.deletion⟩ : DiffRec)) ++
          nl.map (fun _ => (⟨p, p, Origin.addition⟩ : DiffRec))) =
    nl.map (fun _ => (⟨p, p, Origin.addition⟩ : DiffRec)) := by
  cases nl with
  | nil => rfl
  | cons l ls => rfl

/-- The per-path body of the empty-old-tree diff is just the new file's
lines as additions. -/
theorem diff_none_body (t : TreeData) (p : String) :
    (if lookupFile [] p = lookupFile t p then ([] : List DiffRec)
     else (lookupFile [] p).map (fun _ => (⟨p, p, Origin.deletion⟩ : DiffRec)) ++
          (lookupFile t p).map (fun _ => (⟨p, p, Origin.addition⟩ : DiffRec))) =
    (lookupFile t p).map (fun _ => (⟨p, p, Origin.addition⟩ : DiffRec)) := by
  have hlk : lookupFile [] p = [] := rfl
  rw [hlk]
  exact diff_new_file_branch p (lookupFile t p)

/-- Walking a nodup tree's own paths and re-looking-up each file visits
each entry once. -/
theorem flatMap_paths_lookup (t : TreeData) (hnd : (t.map Prod.fst).Nodup) :
    (t.map Prod.fst).flatMap (fun p => (lookupFile t p).map
        (fun _ => (⟨p, p, Origin.addition⟩ : DiffRec))) =
    t.flatMap (fun e => e.2.map (fun _ => (⟨e.1, e.1, Origin.addition⟩ : DiffRec))) := by
  induction t with
  | nil => rfl
  | cons e rest ih =>
    rw [List.map_cons] at hnd
    have h1 : e.1 ∉ rest.map Prod.fst := (List.nodup_cons.mp hnd).1
    have hrest : (rest.map Prod.fst).Nodup := (List.nodup_cons.mp hnd).2
    have hne : ∀ p ∈ rest.map Prod.fst, ¬(e.1 = p) := by
      intro p hp heq
      exact h1 (heq ▸ hp)
    rw [List.map_cons, List.flatMap_cons, List.flatMap_cons]
    congr 1
    · rw [lookupFile_cons_self e rest]
    · rw [List.flatMap_congr (fun p hp => by
        rw [lookupFile_cons_ne e rest p (hne p hp)])]
      exact ih hrest

/-- Against the NULL (empty) tree, the diff model emits exactly one
addition record per line of each file of the new tree. -/
theorem diff_tree_to_tree_none (t : TreeData) (hnd : (t.map Prod.fst).Nodup) :
    git_diff_tree_to_tree none t =
      t.flatMap (fun e => e.2.map (fun _ => (⟨e.1, e.1, Origin.addition⟩ : DiffRec))) := by
  show ((([] : TreeData).map Prod.fst ++ t.map Prod.fst).dedup).flatMap (fun p =>
      if lookupFile [] p = lookupFile t p then []
      else (lookupFile [] p).map (fun _ => (⟨p, p, Origin.deletion⟩ : DiffRec)) ++
           (lookupFile t p).map (fun _ => (⟨p, p, Origin.addition⟩ : DiffRec))) = _
  rw [List.map_nil, List.nil_append, List.Nodup.dedup hnd]
  rw [List.flatMap_congr (fun p _ => diff_none_body t p)]
  exact flatMap_paths_lookup t hnd

/-- Folding the unfiltered callback over all-addition records counts
their number into `adds` and leaves `dels` untouched. -/
theorem statsFold_all_additions :
    ∀ (recs : List DiffRec), (∀ r ∈ recs, r.origin = Origin.addition) →
    ∀ st : Nat × Nat, recs.foldl (git_commit_stats_cb none) st = (st.1 + recs.length, st.2) := by
  intro recs
  induction recs with
  | nil => intro _ st; simp
  | cons r rs ih =>
    intro h st
    have hr : r.origin = Origin.addition := h r (by simp)
    have hcb : git_commit_stats_cb none st r = (st.1 + 1, st.2) := by
      unfold git_commit_stats_cb
      simp [hr]
    simp only [List.foldl_cons, hcb]
    rw [ih (fun x hx => h x (by simp [hx])) (st.1 + 1, st.2)]
    simp only [List.length_cons]
    have : st.1 + 1 + rs.length = st.1 + (rs.length + 1) := by omega
    rw [this]

/-- The addition records of a tree number its total lines. -/
theorem length_addition_records (t : TreeData) :
    (t.flatMap (fun e => e.2.map
      (fun _ => (⟨e.1, e.1, Origin.addition⟩ : DiffRec)))).length = totalLines t := by
  induction t with
  | nil => rfl
  | cons e rest ih =>
    simp only [List.flatMap_cons, List.length_append, List.length_map, totalLines,
      List.map_cons, List.sum_cons]
    rw [ih]
    rfl

/-- C5: on a root commit (no parents) the stats engine diffs the
commit's tree against the implicit empty tree and succeeds — no error —
with zero deletions and additions equal to the total line count of the
tree. -/
theorem stats_of_root_commit (repo : Repo) (c : CommitData) (t : TreeData)
    (hp : c.parents = [])
    (ht : git_commit_tree repo c = Except.ok t)
    (hnd : (t.map Prod.fst).Nodup) :
    rugged_commit_stats_of repo c none =
      Except.ok { oid := c.oid, author := c.author, committer := c.committer,
                  adds := totalLines t, dels := 0 } := by
  have hpar : git_commit_parent repo c 0 = Except.error GitError.notFound := by
    unfold git_commit_parent
    rw [hp]
    rfl
  have hstage : parentTreeStage repo c = Except.ok none := by
    unfold parentTreeStage
    rw [hpar]
  unfold rugged_commit_stats_of
  simp only [ht, hstage]
  have hcounts : git_commit_stats_of repo t none none = (totalLines t, 0) := by
    unfold git_commit_stats_of statsFold
    rw [diff_tree_to_tree_none t hnd]
    rw [statsFold_all_additions _ ?hall (0, 0)]
    · rw [length_addition_records t]
      simp
    case hall =>
      intro r hr
      rw [List.mem_flatMap] at hr
      rcases hr with ⟨e, _, hr⟩
      rw [List.mem_map] at hr
      rcases hr with ⟨_, _, hback⟩
      rw [← hback]
  rw [hcounts]

/-- C5 witness: the demo root commit with a two-line file yields
`adds = 2`, `dels = 0`. -/
theorem stats_of_root_commit_witness :
    rugged_commit_stats_of demoRepo commitRoot none =
      Except.ok { oid := commitRoot.oid, author := commitRoot.author,
                  committer := commitRoot.committer,
                  adds := totalLines treeRoot, dels := 0 } :=
  stats_of_root_commit demoRepo commitRoot treeRoot rfl (by decide) (by decide)

/-! ### `rugged_revwalk.c`: the bulk walk -/

/-- UINT64_MAX, the default (effectively unbounded) yield limit. -/
def UINT64_MAX : Nat := 2 ^ 64 - 1

/-- The mutable fields of `struct walk_options` that `do_walk` reads. -/
structure WalkOpts where
  oid_only : Bool
  stats_only : Bool
  no_merges : Bool
  offset : Nat
  limit : Nat
deriving DecidableEq

/-- The defaults `rb_git_walk` installs before reading the options hash:
everything off, offset 0, limit UINT64_MAX. -/
def initWalkOpts : WalkOpts :=
  { oid_only := false, stats_only := false, no_merges := false,
    offset := 0, limit := UINT64_MAX }

/-- The recognized entries of the Ruby options hash. -/
structure WalkHash where
  offset : Option Nat
  limit : Option Nat
  no_merges : Bool
  stats_only : Bool
  oid_only : Bool
deriving DecidableEq

/-- `load_walk_limits`: read `offset` and `limit` when present, set
`no_merges` when truthy, and let `stats_only` set both `no_merges` and
`stats_only`. -/
def load_walk_limits (w : WalkOpts) (h : WalkHash) : WalkOpts :=
  let w1 := match h.offset with
    | some n => { w with offset := n }
    | none => w
  let w2 := match h.limit with
    | some n => { w1 with limit := n }
    | none => w1
  let w3 := if h.no_merges then { w2 with no_merges := true } else w2
  if h.stats_only then { w3 with no_merges := true, stats_only := true } else w3

/-- The option-reading part of `load_all_options` that feeds `do_walk`
(the `sort`/`show`/`hide`/`simplify` entries configure the underlying
libgit2 walker, which produces the OID stream consumed below). -/
def load_all_options (w : WalkOpts) (h : WalkHash) : WalkOpts :=
  let w1 := load_walk_limits w h
  if h.oid_only then { w1 with oid_only := true } else w1

/-- One yielded element of the bulk walk. -/
inductive WalkResult where
  | oid (o : Oid)
  | commit (c : CommitData)
  | stats (s : CommitStats)
deriving DecidableEq

/-- `apply_walk_options`: skip (nil) any commit with more than one
parent under `no_merges`; under `stats_only` compute the
additions/deletions of the commit's tree against its first parent's
tree (NULL for a root commit) with the unfiltered callback
`rb_git_walker_stats_cb`; otherwise wrap the commit itself. -/
def apply_walk_options (repo : Repo) (w : WalkOpts) (c : CommitData) :
    Except GitError (Option WalkResult) :=
  if w.no_merges && decide (1 < c.parents.length) then Except.ok none
  else if w.stats_only then
    match git_commit_tree repo c with
    | Except.error e => Except.error e
    | Except.ok tree =>
      match parentTreeStage repo c with
      | Except.error e => Except.error e
      | Except.ok right_tree =>
        let counts := statsFold none (git_diff_tree_to_tree right_tree tree)
        Except.ok (some (WalkResult.stats
          { oid := c.oid, author := c.author, committer := c.committer,
            adds := counts.1, dels := counts.2 }))
  else Except.ok (some (WalkResult.commit c))

/-- The per-OID step of `do_walk`'s loop body: yield the bare OID under
`oid_only`; otherwise look the commit up (a failure here is raised and
aborts the walk) and run `apply_walk_options` — which `do_walk` invokes
under `rb_protect`, so an exception there leaves `result == Qnil` and is
swallowed by the `result == Qnil → continue` check, like a nil skip. -/
def walkStep (repo : Repo) (w : WalkOpts) (o : Oid) :
    Except GitError (Option WalkResult) :=
  if w.oid_only then Except.ok (some (WalkResult.oid o))
  else
    match git_commit_lookup repo o with
    | Except.error e => Except.error e
    | Except.ok c =>
      match apply_walk_options repo w c with
      | Except.error _ => Except.ok none
      | Except.ok r => Except.ok r

/-- Two's-complement decrement of the unsigned 64-bit limit counter:
`--w->limit` wraps a stored 0 to UINT64_MAX. -/
def u64dec (n : Nat) : Nat :=
  if n = 0 then UINT64_MAX else n - 1

/-- The `while (git_revwalk_next(...) == 0)` loop of `do_walk` over the
walker's OID stream: skip while `offset > 0` (decrementing it),
otherwise run the step; a `none` outcome continues without touching the
limit; a yield decrements the limit and breaks when it reaches zero. -/
def do_walkLoop (repo : Repo) (w : WalkOpts) :
    List Oid → Nat → Nat → Except GitError (List WalkResult)
  | [], _, _ => Except.ok []
  | o :: rest, offset, limit =>
    if 0 < offset then do_walkLoop repo w rest (offset - 1) limit
    else
      match walkStep repo w o with
      | Except.error e => Except.error e
      | Except.ok none => do_walkLoop repo w rest 0 limit
      | Except.ok (some r) =>
        if u64dec limit = 0 then Except.ok [r]
        else
          match do_walkLoop repo w rest 0 (u64dec limit) with
          | Except.error e => Except.error e
          | Except.ok rs => Except.ok (r :: rs)

/-- `do_walk`: run the loop from the configured offset and limit. -/
def do_walk (repo : Repo) (w : WalkOpts) (oids : List Oid) :
    Except GitError (List WalkResult) :=
  do_walkLoop repo w oids w.offset w.limit

/-- The walk's yields with no offset skipping and no limit: every
OID of the stream run through the step, skips dropped. -/
def walkYields (repo : Repo) (w : WalkOpts) : List Oid → Except GitError (List WalkResult)
  | [] => Except.ok []
  | o :: rest =>
    match walkStep repo w o with
    | Except.error e => Except.error e
    | Except.ok none => walkYields repo w rest
    | Except.ok (some r) =>
      match walkYields repo w rest with
      | Except.error e => Except.error e
      | Except.ok rs => Except.ok (r :: rs)

/-- The offset phase consumes raw stream entries, yielded or not. -/
theorem do_walkLoop_offset (repo : Repo) (w : WalkOpts) :
    ∀ (oids : List Oid) (k limit : Nat),
      do_walkLoop repo w oids k limit = do_walkLoop repo w (oids.drop k) 0 limit := by
  intro oids
  induction oids with
  | nil => intro k limit; simp [do_walkLoop]
  | cons o rest ih =>
    intro k limit
    cases k with
    | zero => rfl
    | succ k =>
      rw [List.drop_succ_cons]
      have hstep : do_walkLoop repo w (o :: rest) (k + 1) limit =
          do_walkLoop repo w rest k limit := by
        simp only [do_walkLoop]
        rw [if_pos (by omega)]
        simp only [Nat.add_sub_cancel]
      rw [hstep]
      exact ih k limit

/-- With a positive limit, the loop yields exactly the first `limit`
elements of the unbounded yield sequence (when that sequence is
defined). -/
theorem do_walkLoop_limit (repo : Repo) (w : WalkOpts) :
    ∀ (oids : List Oid) (l : Nat) (ys : List WalkResult),
      1 ≤ l →
      walkYields repo w oids = Except.ok ys →
      do_walkLoop repo w oids 0 l = Except.ok (ys.take l) := by
  intro oids
  induction oids with
  | nil =>
    intro l ys _ hy
    cases hy
    simp [do_walkLoop]
  | cons o rest ih =>
    intro l ys hl hy
    unfold walkYields at hy
    cases hs : walkStep repo w o with
    | error e => rw [hs] at hy; cases hy
    | ok r =>
      rw [hs] at hy
      cases r with
      | none =>
        have hred : do_walkLoop repo w (o :: rest) 0 l = do_walkLoop repo w rest 0 l := by
          simp only [do_walkLoop, hs]
          rw [if_neg (by omega)]
        rw [hred]
        exact ih l ys hl hy
      | some r =>
        cases hrest : walkYields repo w rest with
        | error e => rw [hrest] at hy; cases hy
        | ok ys2 =>
          rw [hrest] at hy
          cases hy
          obtain ⟨m, rfl⟩ : ∃ m, l = m + 1 := ⟨l - 1, by omega⟩
          have hdec : u64dec (m + 1) = m := by
            unfold u64dec
            rw [if_neg (by omega)]
            simp
          have hred : do_walkLoop repo w (o :: rest) 0 (m + 1) =
              (if u64dec (m + 1) = 0 then Except.ok [r]
               else match do_walkLoop repo w rest 0 (u64dec (m + 1)) with
                 | Except.error e => Except.error e
                 | Except.ok rs => Except.ok (r :: rs)) := by
            simp only [do_walkLoop, hs]
            rw [if_neg (by omega)]
          rw [hred, hdec, List.take_succ_cons]
          by_cases hone : m = 0
          · rw [if_pos hone, hone]
            simp
          · rw [if_neg hone]
            rw [ih m ys2 (by omega) hrest]

/-! ### C4 -/

/-- C4 counterexample: on a stream whose first commit is a merge, with
`no_merges` and `offset 1`, the walk still yields both non-merge
commits — the offset consumed the filtered-out merge, not the first
yielded result; dropping the first yielded result would give a
different list. -/

def oidMerge : Oid := "eeeeeeeeeeeeeeeeeeeeeeeeeeeeeeeeeeeeeeee"
def oidSide : Oid := "ffffffffffffffffffffffffffffffffffffffff"

def commitSide : CommitData :=
  { oid := oidSide, parents := [oidRoot], treeOid := oidTreeR,
    author := sigB, committer := sigB, time := 150 }

/-- A merge commit on top of the demo pair. -/
def commitMerge : CommitData :=
  { oid := oidMerge, parents := [oidChild, oidSide], treeOid := oidTreeC,
    author := sigB, committer := sigB, time := 300 }

def mergeRepo : Repo :=
  (oidMerge, GObj.commit commitMerge) ::
  (oidSide, GObj.commit commitSide) ::
  demoRepo

def noMergesOffset1 : WalkOpts :=
  load_all_options initWalkOpts
    { offset := some 1, limit := none, no_merges := true,
      stats_only := false, oid_only := false }

def noMergesOffset0 : WalkOpts :=
  load_all_options initWalkOpts
    { offset := none, limit := none, no_merges := true,
      stats_only := false, oid_only := false }

theorem walk_offset_counts_filtered_commits :
    do_walk mergeRepo noMergesOffset1 [oidMerge, oidChild, oidRoot] =
      Except.ok [WalkResult.commit commitChild, WalkResult.commit commitRoot] ∧
    do_walk mergeRepo noMergesOffset0 [oidMerge, oidChild, oidRoot] =
      Except.ok [WalkResult.commit commitChild, WalkResult.commit commitRoot] ∧
    ([WalkResult.commit commitChild, WalkResult.commit commitRoot] : List WalkResult) ≠
      List.drop 1 [WalkResult.commit commitChild, WalkResult.commit commitRoot] := by
  refine ⟨by decide, by decide, by decide⟩

/-- C4 (amended): `offset` skips the first N entries of the underlying
walker's stream — counting commits the `no_merges`/`stats_only` filter
would discard, not just yielded results — and `limit` caps the number
of yielded results. -/
theorem do_walk_offset_limit (repo : Repo) (w : WalkOpts) (oids : List Oid)
    (ys : List WalkResult)
    (hl : 1 ≤ w.limit) (_hmax : w.limit ≤ UINT64_MAX)
    (hy : walkYields repo w (oids.drop w.offset) = Except.ok ys) :
    do_walk repo w oids = Except.ok (ys.take w.limit) := by
  unfold do_walk
  rw [do_walkLoop_offset repo w oids w.offset w.limit]
  exact do_walkLoop_limit repo w (oids.drop w.offset) w.limit ys hl hy

/-- C4 amended witness: offset 1 and limit 1 on the merge stream yield
exactly the first remaining non-merge commit. -/
theorem do_walk_offset_limit_witness :
    do_walk mergeRepo
      (load_all_options initWalkOpts
        { offset := some 1, limit := some 1, no_merges := true,
          stats_only := false, oid_only := false })
      [oidMerge, oidChild, oidRoot] =
    Except.ok ((
      [WalkResult.commit commitChild, WalkResult.commit commitRoot] : List WalkResult).take
        (load_all_options initWalkOpts
          { offset := some 1, limit := some 1, no_merges := true,
            stats_only := false, oid_only := false }).limit) :=
  do_walk_offset_limit mergeRepo
    (load_all_options initWalkOpts
      { offset := some 1, limit := some 1, no_merges := true,
        stats_only := false, oid_only := false })
    [oidMerge, oidChild, oidRoot]
    [WalkResult.commit commitChild, WalkResult.commit commitRoot]
    (by decide) (by decide) (by decide)

/-! ### C9 -/

/-- A walk yields at most one result per stream entry. -/
theorem walkYields_length_le (repo : Repo) (w : WalkOpts) :
    ∀ (oids : List Oid) (ys : List WalkResult),
      walkYields repo w oids = Except.ok ys → ys.length ≤ oids.length := by
  intro oids
  induction oids with
  | nil =>
    intro ys hy
    cases hy
    simp
  | cons o rest ih =>
    intro ys hy
    unfold walkYields at hy
    cases hs : walkStep repo w o with
    | error e => rw [hs] at hy; cases hy
    | ok r =>
      rw [hs] at hy
      cases r with
      | none =>
        have := ih ys hy
        simp only [List.length_cons]
        omega
      | some r =>
        cases hrest : walkYields repo w rest with
        | error e => rw [hrest] at hy; cases hy
        | ok ys2 =>
          rw [hrest] at hy
          cases hy
          have := ih ys2 hrest
          simp only [List.length_cons]
          omega

/-- A stored limit of 0 wraps on the first decrement and never stops a
walk of fewer than 2^64 stream entries. -/
theorem do_walkLoop_limit_zero (repo : Repo) (w : WalkOpts) :
    ∀ (oids : List Oid) (ys : List WalkResult),
      oids.length < 2 ^ 64 →
      walkYields repo w oids = Except.ok ys →
      do_walkLoop repo w oids 0 0 = Except.ok ys := by
  intro oids
  induction oids with
  | nil =>
    intro ys _ hy
    cases hy
    rfl
  | cons o rest ih =>
    intro ys hlen hy
    unfold walkYields at hy
    cases hs : walkStep repo w o with
    | error e => rw [hs] at hy; cases hy
    | ok r =>
      rw [hs] at hy
      cases r with
      | none =>
        have hred : do_walkLoop repo w (o :: rest) 0 0 = do_walkLoop repo w rest 0 0 := by
          simp only [do_walkLoop, hs]
          rw [if_neg (by omega)]
        rw [hred]
        exact ih ys (by simp at hlen; omega) hy
      | some r =>
        cases hrest : walkYields repo w rest with
        | error e => rw [hrest] at hy; cases hy
        | ok ys2 =>
          rw [hrest] at hy
          cases hy
          have hdec : u64dec 0 = UINT64_MAX := by
            unfold u64dec
            rw [if_pos rfl]
          have hred : do_walkLoop repo w (o :: rest) 0 0 =
              (if u64dec 0 = 0 then Except.ok [r]
               else match do_walkLoop repo w rest 0 (u64dec 0) with
                 | Except.error e => Except.error e
                 | Except.ok rs => Except.ok (r :: rs)) := by
            simp only [do_walkLoop, hs]
            rw [if_neg (by omega)]
          rw [hred, hdec]
          rw [if_neg (by unfold UINT64_MAX; omega)]
          rw [do_walkLoop_limit repo w rest UINT64_MAX ys2
            (by unfold UINT64_MAX; omega) hrest]
          rw [List.take_of_length_le]
          have h1 := walkYields_length_le repo w rest ys2 hrest
          have h2 : rest.length < 2 ^ 64 := by simp at hlen; omega
          unfold UINT64_MAX
          omega

/-- C9: passing `limit: 0` does not cap the walk at zero yields: the
unsigned 64-bit counter wraps to 2^64 - 1 on the first post-yield
decrement, so the walk behaves as unlimited on any stream shorter than
2^64 entries. -/
theorem walk_limit_zero_is_unlimited (repo : Repo) (w : WalkOpts)
    (oids : List Oid) (ys : List WalkResult)
    (h0 : w.limit = 0) (hlen : oids.length < 2 ^ 64)
    (hy : walkYields repo w (oids.drop w.offset) = Except.ok ys) :
    u64dec 0 = 2 ^ 64 - 1 ∧ do_walk repo w oids = Except.ok ys := by
  constructor
  · unfold u64dec
    rw [if_pos rfl]
    rfl
  · unfold do_walk
    rw [h0, do_walkLoop_offset repo w oids w.offset 0]
    have hdlen : (oids.drop w.offset).length < 2 ^ 64 := by
      have hld : (oids.drop w.offset).length = oids.length - w.offset := by
        rw [List.length_drop]
      omega
    exact do_walkLoop_limit_zero repo w (oids.drop w.offset) ys hdlen hy

/-- C9 witness: a three-entry stream with `limit: 0` yields all three
commits. -/
theorem walk_limit_zero_is_unlimited_witness :
    u64dec 0 = 2 ^ 64 - 1 ∧
    do_walk mergeRepo
      (load_all_options initWalkOpts
        { offset := none, limit := some 0, no_merges := false,
          stats_only := false, oid_only := false })
      [oidMerge, oidChild, oidRoot] =
      Except.ok [WalkResult.commit commitMerge, WalkResult.commit commitChild,
                 WalkResult.commit commitRoot] :=
  walk_limit_zero_is_unlimited mergeRepo
    (load_all_options initWalkOpts
      { offset := none, limit := some 0, no_merges := false,
        stats_only := false, oid_only := false })
    [oidMerge, oidChild, oidRoot]
    [WalkResult.commit commitMerge, WalkResult.commit commitChild,
     WalkResult.commit commitRoot]
    (by decide) (by decide) (by decide)

/-! ### C8 -/

/-- `load_walk_limits` under a truthy `stats_only` turns on both
`no_merges` and `stats_only`. -/
theorem load_walk_limits_stats_only (w : WalkOpts) (h : WalkHash)
    (hs : h.stats_only = true) :
    (load_walk_limits w h).no_merges = true ∧
    (load_walk_limits w h).stats_only = true := by
  unfold load_walk_limits
  rw [hs]
  simp

/-- `load_walk_limits` never touches `oid_only`. -/
theorem load_walk_limits_oid_only (w : WalkOpts) (h : WalkHash) :
    (load_walk_limits w h).oid_only = w.oid_only := by
  unfold load_walk_limits
  cases h.offset <;> cases h.limit <;> cases h.no_merges <;> cases h.stats_only <;> simp

/-- Under `no_merges` and `stats_only`, `apply_walk_options` skips
merge commits, and any produced result is the stats record of a commit
with at most one parent. -/
theorem apply_walk_options_stats_shape (repo : Repo) (w : WalkOpts) (c : CommitData)
    (hno : w.no_merges = true) (hst : w.stats_only = true) :
    (1 < c.parents.length → apply_walk_options repo w c = Except.ok none) ∧
    (∀ r, apply_walk_options repo w c = Except.ok (some r) →
      c.parents.length ≤ 1 ∧ ∃ s, r = WalkResult.stats s ∧ s.oid = c.oid) := by
  constructor
  · intro hp
    unfold apply_walk_options
    rw [hno]
    rw [if_pos (by simp [hp])]
  · intro r happ
    unfold apply_walk_options at happ
    rw [hno, hst] at happ
    by_cases hp : 1 < c.parents.length
    · rw [if_pos (by simp [hp])] at happ
      cases happ
    · refine ⟨by omega, ?_⟩
      rw [if_neg (by simp [hp])] at happ
      rw [if_pos rfl] at happ
      cases ht : git_commit_tree repo c with
      | error e => rw [ht] at happ; cases happ
      | ok tree =>
        rw [ht] at happ
        cases hpt : parentTreeStage repo c with
        | error e => rw [hpt] at happ; cases happ
        | ok right_tree =>
          rw [hpt] at happ
          cases happ
          exact ⟨_, rfl, rfl⟩

/-- Under `stats_only` (with `oid_only` off), every yielded step result
is the stats record of a looked-up commit with at most one parent. -/
theorem walkStep_stats_shape (repo : Repo) (w : WalkOpts) (o : Oid)
    (hoid : w.oid_only = false) (hno : w.no_merges = true) (hst : w.stats_only = true) :
    ∀ r, walkStep repo w o = Except.ok (some r) →
      ∃ c, git_commit_lookup repo o = Except.ok c ∧ c.parents.length ≤ 1 ∧
        ∃ s, r = WalkResult.stats s ∧ s.oid = c.oid := by
  intro r hstep
  unfold walkStep at hstep
  rw [hoid] at hstep
  simp only [Bool.false_eq_true, if_false] at hstep
  cases hlk : git_commit_lookup repo o with
  | error e => rw [hlk] at hstep; cases hstep
  | ok c =>
    rw [hlk] at hstep
    have hstep2 : (match apply_walk_options repo w c with
        | Except.error _ => Except.ok none
        | Except.ok r => Except.ok r) = Except.ok (some r) := hstep
    cases happ : apply_walk_options repo w c with
    | error e => rw [happ] at hstep2; cases hstep2
    | ok r2 =>
      rw [happ] at hstep2
      cases hstep2
      have := (apply_walk_options_stats_shape repo w c hno hst).2 r happ
      exact ⟨c, rfl, this.1, this.2⟩

/-- Every result of the walk loop under `stats_only`/`no_merges` comes
from a stream commit with at most one parent, as a stats record. -/
theorem do_walkLoop_stats_shape (repo : Repo) (w : WalkOpts)
    (hoid : w.oid_only = false) (hno : w.no_merges = true) (hst : w.stats_only = true) :
    ∀ (oids : List Oid) (offset limit : Nat) (rs : List WalkResult),
      do_walkLoop repo w oids offset limit = Except.ok rs →
      ∀ r ∈ rs, ∃ o, o ∈ oids ∧ ∃ c, git_commit_lookup repo o = Except.ok c ∧
        c.parents.length ≤ 1 ∧ ∃ s, r = WalkResult.stats s ∧ s.oid = c.oid := by
  intro oids
  induction oids with
  | nil =>
    intro offset limit rs hloop r hr
    cases hloop
    cases hr
  | cons o rest ih =>
    intro offset limit rs hloop r hr
    by_cases hoff : 0 < offset
    · have hred : do_walkLoop repo w (o :: rest) offset limit =
          do_walkLoop repo w rest (offset - 1) limit := by
        simp only [do_walkLoop]
        rw [if_pos hoff]
      rw [hred] at hloop
      rcases ih (offset - 1) limit rs hloop r hr with ⟨o2, ho2, rest2⟩
      exact ⟨o2, List.mem_cons_of_mem o ho2, rest2⟩
    · cases hs : walkStep repo w o with
      | error e =>
        have hred : do_walkLoop repo w (o :: rest) offset limit = Except.error e := by
          simp only [do_walkLoop, hs]
          rw [if_neg hoff]
        rw [hred] at hloop
        cases hloop
      | ok r0 =>
        cases r0 with
        | none =>
          have hred : do_walkLoop repo w (o :: rest) offset limit =
              do_walkLoop repo w rest 0 limit := by
            simp only [do_walkLoop, hs]
            rw [if_neg hoff]
          rw [hred] at hloop
          rcases ih 0 limit rs hloop r hr with ⟨o2, ho2, rest2⟩
          exact ⟨o2, List.mem_cons_of_mem o ho2, rest2⟩
        | some r0 =>
          have hred : do_walkLoop repo w (o :: rest) offset limit =
              (if u64dec limit = 0 then Except.ok [r0]
               else match do_walkLoop repo w rest 0 (u64dec limit) with
                 | Except.error e => Except.error e
                 | Except.ok rs => Except.ok (r0 :: rs)) := by
            simp only [do_walkLoop, hs]
            rw [if_neg hoff]
          rw [hred] at hloop
          by_cases hlim : u64dec limit = 0
          · rw [if_pos hlim] at hloop
            cases hloop
            have hr0 : r = r0 := by
              cases hr with
              | head => rfl
              | tail _ hmem => cases hmem
            rcases walkStep_stats_shape repo w o hoid hno hst r (hr0 ▸ hs) with ⟨c, hc⟩
            exact ⟨o, List.mem_cons_self o rest, c, hc⟩
          · rw [if_neg hlim] at hloop
            cases hloop2 : do_walkLoop repo w rest 0 (u64dec limit) with
            | error e => rw [hloop2] at hloop; cases hloop
            | ok rs2 =>
              rw [hloop2] at hloop
              cases hloop
              cases hr with
              | head =>
                rcases walkStep_stats_shape repo w o hoid hno hst r hs with ⟨c, hc⟩
                exact ⟨o, List.mem_cons_self o rest, c, hc⟩
              | tail _ hmem =>
                rcases ih 0 (u64dec limit) rs2 hloop2 r hmem with ⟨o2, ho2, rest2⟩
                exact ⟨o2, List.mem_cons_of_mem o ho2, rest2⟩

/-- C8: in the bulk walk, setting `statsOnly` turns `noMerges` on, and
every yielded result is the stats record of a stream commit with at
most one parent — never a commit object, never a merge. -/
theorem stats_only_walk_yields_stats (repo : Repo) (h : WalkHash)
    (oids : List Oid) (rs : List WalkResult)
    (hstats : h.stats_only = true) (hoid : h.oid_only = false) :
    (load_all_options initWalkOpts h).no_merges = true ∧
    (load_all_options initWalkOpts h).stats_only = true ∧
    (do_walk repo (load_all_options initWalkOpts h) oids = Except.ok rs →
      ∀ r ∈ rs, ∃ o, o ∈ oids ∧ ∃ c, git_commit_lookup repo o = Except.ok c ∧
        c.parents.length ≤ 1 ∧ ∃ s, r = WalkResult.stats s ∧ s.oid = c.oid) := by
  have hfields := load_walk_limits_stats_only initWalkOpts h hstats
  have hno : (load_all_options initWalkOpts h).no_merges = true := by
    unfold load_all_options
    cases hh : h.oid_only <;> simp [hfields.1]
  have hst : (load_all_options initWalkOpts h).stats_only = true := by
    unfold load_all_options
    cases hh : h.oid_only <;> simp [hfields.2]
  have hoo : (load_all_options initWalkOpts h).oid_only = false := by
    unfold load_all_options
    rw [hoid]
    simp only [Bool.false_eq_true, if_false]
    rw [load_walk_limits_oid_only initWalkOpts h]
    rfl
  refine ⟨hno, hst, ?_⟩
  intro hwalk
  exact do_walkLoop_stats_shape repo (load_all_options initWalkOpts h) hoo hno hst
    oids (load_all_options initWalkOpts h).offset (load_all_options initWalkOpts h).limit
    rs hwalk

def statsOnlyHash : WalkHash :=
  { offset := none, limit := none, no_merges := false,
    stats_only := true, oid_only := false }

def statsChild : CommitStats :=
  { oid := oidChild, author := sigB, committer := sigB, adds := 3, dels := 2 }

def statsRoot : CommitStats :=
  { oid := oidRoot, author := sigA, committer := sigA, adds := 2, dels := 0 }

/-- C8 witness: a stats-only walk over the merge stream skips the merge
commit and yields the two stats records, each tied to a ≤1-parent
commit. -/
theorem stats_only_walk_yields_stats_witness :
    (load_all_options initWalkOpts statsOnlyHash).no_merges = true ∧
    (load_all_options initWalkOpts statsOnlyHash).stats_only = true ∧
    (∀ r ∈ [WalkResult.stats statsChild, WalkResult.stats statsRoot], ∃ o,
      o ∈ [oidMerge, oidChild, oidRoot] ∧ ∃ c,
        git_commit_lookup mergeRepo o = Except.ok c ∧
        c.parents.length ≤ 1 ∧ ∃ s, r = WalkResult.stats s ∧ s.oid = c.oid) :=
  ⟨(stats_only_walk_yields_stats mergeRepo statsOnlyHash
      [oidMerge, oidChild, oidRoot]
      [WalkResult.stats statsChild, WalkResult.stats statsRoot]
      (by decide) (by decide)).1,
   (stats_only_walk_yields_stats mergeRepo statsOnlyHash
      [oidMerge, oidChild, oidRoot]
      [WalkResult.stats statsChild, WalkResult.stats statsRoot]
      (by decide) (by decide)).2.1,
   (stats_only_walk_yields_stats mergeRepo statsOnlyHash
      [oidMerge, oidChild, oidRoot]
      [WalkResult.stats statsChild, WalkResult.stats statsRoot]
      (by decide) (by decide)).2.2 (by decide)⟩

/-! ### `rugged_commit.c`: `rb_git_commit_diff_between_repos` -/

/-- `git_odb_exists`: cheap existence probe, no decode, any object
kind. -/
def git_odb_exists (repo : Repo) (o : Oid) : Bool :=
  (lookupObj repo o).isSome

/-- The cutoff-search loop of `rb_git_commit_diff_between_repos`:
`while (oid1 != NULL && !git_odb_exists(odb2, oid1))` walk the
first-parent chain in `repo1`, failing if a chain commit cannot be
looked up; stops with the first OID present in `repo2`'s object
database or with NULL when a root is passed.  `fuel` bounds the
unbounded C loop. -/
def probeLoop (repo1 repo2 : Repo) : Nat → Option Oid → Except GitError (Option Oid)
  | _, none => Except.ok none
  | fuel, some o =>
    if git_odb_exists repo2 o then Except.ok (some o)
    else
      match git_commit_lookup repo1 o with
      | Except.error e => Except.error e
      | Except.ok c =>
        match fuel with
        | 0 => Except.error GitError.fuelExhausted
        | fuel + 1 => probeLoop repo1 repo2 fuel c.parents.head?

/-- The first-parent chain of an OID in `repo1` (the OID itself first),
cut off at `fuel` steps or at a root / failed lookup. -/
def fpChain (repo1 : Repo) : Nat → Oid → List Oid
  | 0, o => [o]
  | fuel + 1, o =>
    o :: (match git_commit_lookup repo1 o with
      | Except.ok c =>
        match c.parents.head? with
        | some p => fpChain repo1 fuel p
        | none => []
      | Except.error _ => [])

/-- Parent OIDs of a commit OID, for reachability ([] when absent). -/
def parentsIn (repo : Repo) (o : Oid) : List Oid :=
  match git_commit_lookup repo o with
  | Except.ok c => c.parents
  | Except.error _ => []

/-- One breadth step of reachability. -/
def reachStep (repo : Repo) (s : List Oid) : List Oid :=
  (s ++ s.flatMap (parentsIn repo)).dedup

/-- Modelled from the spec: the OIDs reachable from `o` through parent
edges (`|repo|` breadth steps saturate any store of that size). -/
def reachableFrom (repo : Repo) (o : Oid) : List Oid :=
  (reachStep repo)^[repo.length] [o]

/-- Committer timestamp of an OID (0 when absent). -/
def commitTime (repo : Repo) (o : Oid) : Nat :=
  match git_commit_lookup repo o with
  | Except.ok c => c.time
  | Except.error _ => 0

def insertByTime (repo : Repo) (o : Oid) : List Oid → List Oid
  | [] => [o]
  | x :: xs =>
    if commitTime repo x < commitTime repo o then o :: x :: xs
    else x :: insertByTime repo o xs

/-- Sort OIDs by committer time, newest first. -/
def timeSortDesc (repo : Repo) : List Oid → List Oid
  | [] => []
  | x :: xs => insertByTime repo x (timeSortDesc repo xs)

/-- Modelled from the spec: the external revision walker with
GIT_SORT_TIME — push one tip, optionally hide one boundary, and collect
every reachable-not-hidden OID in time-descending order.  Push and hide
fail on OIDs that do not resolve to commits, as `git_revwalk_push` /
`git_revwalk_hide` do. -/
def revwalkTimePushHide (repo : Repo) (pushO : Oid) (hide : Option Oid) :
    Except GitError (List Oid) :=
  match git_commit_lookup repo pushO with
  | Except.error e => Except.error e
  | Except.ok _ =>
    match hide with
    | none => Except.ok (timeSortDesc repo (reachableFrom repo pushO))
    | some hd =>
      match git_commit_lookup repo hd with
      | Except.error e => Except.error e
      | Except.ok _ =>
        Except.ok (timeSortDesc repo
          ((reachableFrom repo pushO).filter
            (fun o => !((reachableFrom repo hd).contains o))))

/-- `rb_git_commit_diff_between_repos`: validate both OID strings are
exactly 40 characters, parse them, search the first-parent chain of the
first commit in `repo1` for an OID existing in `repo2`'s object
database, replace a found cutoff by its merge base with the second
commit inside `repo2` (the external merge-base query is `mb`; a
no-common-ancestor outcome drops the cutoff), then walk `repo2` from the
second commit, hiding the boundary when there is one, time-sorted. -/
def rb_git_commit_diff_between_repos (repo1 repo2 : Repo)
    (mb : Oid → Oid → Option Oid) (fuel : Nat) (s1 s2 : String) :
    Except GitError (List Oid) :=
  if s1.length < GIT_OID_HEXSZ || s2.length < GIT_OID_HEXSZ then
    Except.error GitError.tooShort
  else if GIT_OID_HEXSZ < s1.length || GIT_OID_HEXSZ < s2.length then
    Except.error GitError.tooLong
  else
    match git_oid_fromstr s1, git_oid_fromstr s2 with
    | some oid1, some oid2 =>
      (match probeLoop repo1 repo2 fuel (some oid1) with
       | Except.error e => Except.error e
       | Except.ok cut =>
         revwalkTimePushHide repo2 oid2 (cut.bind (fun c => mb c oid2)))
    | _, _ => Except.error GitError.invalidSpec

/-- A successful probe returns exactly the first OID of the
first-parent chain that exists in the other object database. -/
theorem probeLoop_eq_find (repo1 repo2 : Repo) :
    ∀ (fuel : Nat) (a : Oid) (cut : Option Oid),
      probeLoop repo1 repo2 fuel (some a) = Except.ok cut →
      cut = (fpChain repo1 fuel a).find? (fun o => git_odb_exists repo2 o) := by
  intro fuel
  induction fuel with
  | zero =>
    intro a cut h
    by_cases hex : git_odb_exists repo2 a = true
    · simp only [probeLoop] at h
      rw [if_pos hex] at h
      cases h
      simp [fpChain, List.find?, hex]
    · simp only [probeLoop] at h
      rw [if_neg hex] at h
      cases hlk : git_commit_lookup repo1 a with
      | error e => rw [hlk] at h; cases h
      | ok c => rw [hlk] at h; cases h
  | succ fuel ih =>
    intro a cut h
    by_cases hex : git_odb_exists repo2 a = true
    · simp only [probeLoop] at h
      rw [if_pos hex] at h
      cases h
      simp [fpChain, List.find?, hex]
    · simp only [probeLoop] at h
      rw [if_neg hex] at h
      cases hlk : git_commit_lookup repo1 a with
      | error e => rw [hlk] at h; cases h
      | ok c =>
        rw [hlk] at h
        have h2 : probeLoop repo1 repo2 fuel c.parents.head? = Except.ok cut := h
        have hfalse : git_odb_exists repo2 a = false := by
          simp only [Bool.not_eq_true] at hex
          exact hex
        cases hp : c.parents.head? with
        | none =>
          rw [hp] at h2
          simp only [probeLoop] at h2
          cases h2
          simp [fpChain, hlk, hp, List.find?, hfalse]
        | some p =>
          rw [hp] at h2
          have := ih p cut h2
          simp only [fpChain, hlk, hp]
          rw [List.find?_cons_of_neg _ (by simp [hfalse])]
          exact this

/-! ### C2 -/

/-- C2: the exclusive-commits query finds its cutoff by walking only
the first-parent chain of the first commit until an OID existing in the
second repository's object database turns up; the result is the
time-sorted walk of the second repository from the second commit hiding
the merge base of cutoff and second commit — and when the chain is
exhausted with no match, or the merge-base query reports no common
ancestor, no boundary is hidden and the full time-sorted reachable
history of the second commit is returned. -/
theorem diff_between_repos_cutoff (repo1 repo2 : Repo)
    (mb : Oid → Oid → Option Oid) (fuel : Nat) (s1 s2 : String)
    (a b : Oid) (cut : Option Oid)
    (hlen1 : s1.length = 40) (hlen2 : s2.length = 40)
    (h1 : git_oid_fromstr s1 = some a) (h2 : git_oid_fromstr s2 = some b)
    (hprobe : probeLoop repo1 repo2 fuel (some a) = Except.ok cut) :
    cut = (fpChain repo1 fuel a).find? (fun o => git_odb_exists repo2 o) ∧
    rb_git_commit_diff_between_repos repo1 repo2 mb fuel s1 s2 =
      revwalkTimePushHide repo2 b (cut.bind (fun c => mb c b)) ∧
    ((cut = none ∨ ∃ c0, cut = some c0 ∧ mb c0 b = none) →
      rb_git_commit_diff_between_repos repo1 repo2 mb fuel s1 s2 =
        (match git_commit_lookup repo2 b with
         | Except.error e => Except.error e
         | Except.ok _ =>
           Except.ok (timeSortDesc repo2 (reachableFrom repo2 b)))) := by
  have hmain : rb_git_commit_diff_between_repos repo1 repo2 mb fuel s1 s2 =
      revwalkTimePushHide repo2 b (cut.bind (fun c => mb c b)) := by
    unfold rb_git_commit_diff_between_repos
    rw [hlen1, hlen2]
    rw [if_neg (by simp [GIT_OID_HEXSZ])]
    rw [if_neg (by simp [GIT_OID_HEXSZ])]
    simp only [h1, h2, hprobe]
  refine ⟨probeLoop_eq_find repo1 repo2 fuel a cut hprobe, hmain, ?_⟩
  intro hnone
  rw [hmain]
  have hbind : cut.bind (fun c => mb c b) = none := by
    rcases hnone with hc | ⟨c0, hc0, hmb⟩
    · rw [hc]; rfl
    · rw [hc0]
      simp [hmb]
  rw [hbind]
  unfold revwalkTimePushHide
  cases git_commit_lookup repo2 b <;> rfl

def oidA2 : Oid := "5555555555555555555555555555555555555555"
def oidA1 : Oid := "6666666666666666666666666666666666666666"
def oidA0 : Oid := "7777777777777777777777777777777777777777"
def oidB1 : Oid := "8888888888888888888888888888888888888888"

def commitA2 : CommitData :=
  { oid := oidA2, parents := [oidA1], treeOid := oidTreeR,
    author := sigA, committer := sigA, time := 400 }

def commitA1 : CommitData :=
  { oid := oidA1, parents := [oidA0], treeOid := oidTreeR,
    author := sigA, committer := sigA, time := 300 }

def commitA0 : CommitData :=
  { oid := oidA0, parents := [], treeOid := oidTreeR,
    author := sigA, committer := sigA, time := 50 }

def commitB1 : CommitData :=
  { oid := oidB1, parents := [oidA0], treeOid := oidTreeR,
    author := sigB, committer := sigB, time := 500 }

/-- Source repository: a2 → a1 → a0 (first-parent chain). -/
def repoSrc : Repo :=
  [ (oidA2, GObj.commit commitA2),
    (oidA1, GObj.commit commitA1),
    (oidA0, GObj.commit commitA0) ]

/-- Destination repository: b1 → a0 (shares only the root a0). -/
def repoDst : Repo :=
  [ (oidB1, GObj.commit commitB1),
    (oidA0, GObj.commit commitA0) ]

/-- Merge-base oracle of the destination repository. -/
def mbDst : Oid → Oid → Option Oid :=
  fun x y => if x == oidA0 && y == oidB1 then some oidA0 else none

/-- C2 witness: the chain a2, a1, a0 probes into the destination store
at a0; the merge base a0 is hidden, leaving exactly b1. -/
theorem diff_between_repos_cutoff_witness :
    (some oidA0 : Option Oid) =
      (fpChain repoSrc 5 oidA2).find? (fun o => git_odb_exists repoDst o) ∧
    rb_git_commit_diff_between_repos repoSrc repoDst mbDst 5 oidA2 oidB1 =
      revwalkTimePushHide repoDst oidB1
        ((some oidA0).bind (fun c => mbDst c oidB1)) :=
  ⟨(diff_between_repos_cutoff repoSrc repoDst mbDst 5 oidA2 oidB1
      oidA2 oidB1 (some oidA0)
      (by decide) (by decide) (by decide) (by decide) (by decide)).1,
   (diff_between_repos_cutoff repoSrc repoDst mbDst 5 oidA2 oidB1
      oidA2 oidB1 (some oidA0)
      (by decide) (by decide) (by decide) (by decide) (by decide)).2.1⟩

/-! ### `rugged_commit.c`: `rb_git_commit_stats` (the parallel batch) -/

/-- `nr_threads = git_online_cpus(); nr_threads = arrlen < nr_threads ?
arrlen : nr_threads`. -/
def nr_threads (cpus arrlen : Nat) : Nat :=
  if arrlen < cpus then arrlen else cpus

/-- One slot of the shared task array (`struct commit_stat_task` plus
its pre-filled stats record). -/
structure StatTask where
  tree : Option TreeData
  parentTree : Option TreeData
  stats : Option CommitStats
deriving DecidableEq

/-- The sequential prep loop body of `rb_git_commit_stats` for one
commit: resolve the first parent's tree (GIT_ENOTFOUND meaning a root
commit gives a NULL parent tree), decode the commit's own tree, and
pre-fill the stats record with the commit's OID and duplicated
author/committer signatures, counts zeroed. -/
def prepTask (repo : Repo) (c : CommitData) : Except GitError StatTask :=
  match parentTreeStage repo c with
  | Except.error e => Except.error e
  | Except.ok parent_tree =>
    match git_commit_tree repo c with
    | Except.error e => Except.error e
    | Except.ok tree =>
      Except.ok { tree := some tree, parentTree := parent_tree,
                  stats := some { oid := c.oid, author := c.author,
                                  committer := c.committer, adds := 0, dels := 0 } }

/-- The whole prep loop: one task per input commit, in input order; the
first failure aborts the batch. -/
def prepTasks (repo : Repo) : List CommitData → Except GitError (List StatTask)
  | [] => Except.ok []
  | c :: cs =>
    match prepTask repo c with
    | Except.error e => Except.error e
    | Except.ok t =>
      match prepTasks repo cs with
      | Except.error e => Except.error e
      | Except.ok ts => Except.ok (t :: ts)

/-- The cross-worker shared state: the mutex-protected claim counter
`top` and the task array.  The mutex serializes claim+increment, so a
claim is one atomic step here; each task writes only its own slot. -/
structure PoolState where
  top : Nat
  tasks : List StatTask
deriving DecidableEq

/-- What a worker does with a claimed task (`commit_stat_task_proc`
body): `git_commit_stats_of(repo, tree, parent_tree, NULL, &adds,
&dels)` written into the slot's stats record. -/
def runTaskAt (repo : Repo) (t : StatTask) : StatTask :=
  let counts := git_commit_stats_of repo (t.tree.getD []) t.parentTree none
  { t with stats := t.stats.map (fun s0 =>
      { s0 with adds := counts.1, dels := counts.2 }) }

/-- One worker iteration: lock, claim `tasks[top]` and bump `top` (or
observe exhaustion), unlock, compute the claimed slot. -/
def poolStep (repo : Repo) (st : PoolState) : PoolState :=
  match st.tasks.get? st.top with
  | some t => { top := st.top + 1, tasks := st.tasks.set st.top (runTaskAt repo t) }
  | none => st

/-- Run an interleaving: each schedule entry names the worker taking
the next claim.  The state transition is independent of the worker id —
all workers run the same loop. -/
def runSchedule (repo : Repo) (st : PoolState) : List Nat → PoolState
  | [] => st
  | _wkr :: ws => runSchedule repo (poolStep repo st) ws

theorem get?_append_length {α : Type} (A B : List α) :
    (A ++ B).get? A.length = B.get? 0 := by
  induction A with
  | nil => rfl
  | cons a as ih => simpa using ih

theorem set_append_length {α : Type} (A B : List α) (x : α) :
    (A ++ B).set A.length x = A ++ B.set 0 x := by
  induction A with
  | nil => rfl
  | cons a as ih =>
    show a :: (as ++ B).set as.length x = a :: (as ++ B.set 0 x)
    rw [ih]

/-- Any schedule long enough to exhaust the counter drives the pool to
completion, and every slot holds its own computed task — regardless of
the interleaving. -/
theorem runSchedule_completes (repo : Repo) :
    ∀ (sched : List Nat) (A todo : List StatTask),
      todo.length ≤ sched.length →
      runSchedule repo { top := A.length, tasks := A ++ todo } sched =
        { top := A.length + todo.length, tasks := A ++ todo.map (runTaskAt repo) } := by
  intro sched
  induction sched with
  | nil =>
    intro A todo hlen
    have h0 : todo.length = 0 := by simpa using hlen
    have : todo = [] := List.length_eq_zero.mp h0
    subst this
    simp [runSchedule]
  | cons wkr ws ih =>
    intro A todo hlen
    cases todo with
    | nil =>
      have hstep : poolStep repo { top := A.length, tasks := A ++ [] } =
          { top := A.length, tasks := A ++ [] } := by
        simp only [poolStep, get?_append_length A [], List.get?_nil]
      show runSchedule repo (poolStep repo { top := A.length, tasks := A ++ [] }) ws = _
      rw [hstep]
      have := ih A [] (by simp)
      simpa using this
    | cons t todo2 =>
      have hstep : poolStep repo { top := A.length, tasks := A ++ t :: todo2 } =
          { top := (A ++ [runTaskAt repo t]).length,
            tasks := (A ++ [runTaskAt repo t]) ++ todo2 } := by
        simp only [poolStep, get?_append_length A (t :: todo2), List.get?_cons_zero]
        rw [set_append_length A (t :: todo2) (runTaskAt repo t)]
        simp
      show runSchedule repo (poolStep repo { top := A.length, tasks := A ++ t :: todo2 }) ws = _
      rw [hstep]
      rw [ih (A ++ [runTaskAt repo t]) todo2 (by simp at hlen ⊢; omega)]
      simp [Nat.add_assoc, Nat.add_comm 1 todo2.length]

/-- A successful prep produces one task per commit, index-aligned. -/
theorem prepTasks_get (repo : Repo) :
    ∀ (cs : List CommitData) (tasks0 : List StatTask),
      prepTasks repo cs = Except.ok tasks0 →
      tasks0.length = cs.length ∧
      ∀ i ci, cs.get? i = some ci →
        ∃ ti, tasks0.get? i = some ti ∧ prepTask repo ci = Except.ok ti := by
  intro cs
  induction cs with
  | nil =>
    intro tasks0 h
    cases h
    exact ⟨rfl, fun i ci hci => by cases hci⟩
  | cons c cs2 ih =>
    intro tasks0 h
    unfold prepTasks at h
    cases hc : prepTask repo c with
    | error e => rw [hc] at h; cases h
    | ok t =>
      rw [hc] at h
      cases hrest : prepTasks repo cs2 with
      | error e => rw [hrest] at h; cases h
      | ok ts =>
        rw [hrest] at h
        cases h
        rcases ih ts hrest with ⟨hlen, hget⟩
        refine ⟨by simp [hlen], ?_⟩
        intro i ci hci
        cases i with
        | zero =>
          cases hci
          exact ⟨t, rfl, hc⟩
        | succ i => exact hget i ci hci

/-- Computing a prepped slot agrees with the single-commit stats
engine on the same commit (path filter NULL). -/
theorem runTaskAt_prepTask (repo : Repo) (ci : CommitData) (ti : StatTask)
    (h : prepTask repo ci = Except.ok ti) :
    (runTaskAt repo ti).stats = (rugged_commit_stats_of repo ci none).toOption := by
  unfold prepTask at h
  cases hps : parentTreeStage repo ci with
  | error e => rw [hps] at h; cases h
  | ok pt =>
    rw [hps] at h
    cases ht : git_commit_tree repo ci with
    | error e => rw [ht] at h; cases h
    | ok tree =>
      rw [ht] at h
      cases h
      unfold rugged_commit_stats_of
      simp only [ht, hps]
      rfl

/-! ### C3 -/

/-- C3: the batch spawns `min(cpus, N)` workers; for any worker count
`k` between 1 and N and any interleaving (schedule) of at least N
claims by those workers, the mutex-serialized claim counter hands every
index out exactly once, the pool completes with `top = N`, slot `i`
keeps input order, and slot `i`'s stats are exactly the single-commit
stats (OID, author, committer, first-parent diff counts) of input
commit `i`. -/
theorem stats_batch_output_order (repo : Repo) (cs : List CommitData)
    (tasks0 : List StatTask) (sched : List Nat) (k cpus : Nat)
    (hprep : prepTasks repo cs = Except.ok tasks0)
    (hk1 : 1 ≤ k) (hk2 : k ≤ cs.length)
    (hids : ∀ wkr ∈ sched, wkr < k)
    (hlen : cs.length ≤ sched.length) :
    nr_threads cpus cs.length = min cpus cs.length ∧
    runSchedule repo { top := 0, tasks := tasks0 } sched =
      { top := cs.length, tasks := tasks0.map (runTaskAt repo) } ∧
    (∀ i ci, cs.get? i = some ci →
      ∃ ti, tasks0.get? i = some ti ∧
        (runTaskAt repo ti).stats = (rugged_commit_stats_of repo ci none).toOption) := by
  rcases prepTasks_get repo cs tasks0 hprep with ⟨hlen0, hget⟩
  refine ⟨?_, ?_, ?_⟩
  · unfold nr_threads
    split <;> omega
  · have := runSchedule_completes repo sched [] tasks0 (by omega)
    simp only [List.length_nil, List.nil_append, Nat.zero_add] at this
    rw [this, hlen0]
  · intro i ci hci
    rcases hget i ci hci with ⟨ti, hti, hpi⟩
    exact ⟨ti, hti, runTaskAt_prepTask repo ci ti hpi⟩

def batchTask0 : StatTask :=
  { tree := some treeChild, parentTree := some treeRoot,
    stats := some { oid := oidChild, author := sigB, committer := sigB,
                    adds := 0, dels := 0 } }

def batchTask1 : StatTask :=
  { tree := some treeRoot, parentTree := none,
    stats := some { oid := oidRoot, author := sigA, committer := sigA,
                    adds := 0, dels := 0 } }

/-- C3 witness: a two-commit batch on the demo store, two workers,
interleaving `[0, 1, 0]`: output order matches input order and each
slot equals the single-commit stats. -/
theorem stats_batch_output_order_witness :
    nr_threads 8 2 = min 8 2 ∧
    runSchedule demoRepo { top := 0, tasks := [batchTask0, batchTask1] } [0, 1, 0] =
      { top := 2, tasks := [batchTask0, batchTask1].map (runTaskAt demoRepo) } ∧
    (∀ i ci, [commitChild, commitRoot].get? i = some ci →
      ∃ ti, [batchTask0, batchTask1].get? i = some ti ∧
        (runTaskAt demoRepo ti).stats =
          (rugged_commit_stats_of demoRepo ci none).toOption) := by
  have h := stats_batch_output_order demoRepo [commitChild, commitRoot]
    [batchTask0, batchTask1] [0, 1, 0] 2 8
    (by decide) (by decide) (by decide) (by decide) (by decide)
  have hlen2 : ([commitChild, commitRoot] : List CommitData).length = 2 := rfl
  exact ⟨h.1, hlen2 ▸ h.2.1, h.2.2⟩

end Rugged
